import Mathlib

/-!
Verification development for the sh-tools repository (Bili_Video).

The source files `src/Bili_Video/m4s.py` and `src/Bili_Video/download.py` are
shallowly embedded below: pure functions become Lean functions over `List Nat`
(byte sequences), `List Char` (Python strings at the code-point level) and
explicit record types for the JSON-shaped stream descriptors.  Fallible code
is embedded with `Except`.  Exact rational arithmetic (`ℚ`) stands for
Python's float arithmetic where a division occurs; the comparison predicates
used inside selection loops are stated as exact integer cross-multiplications
and proved equivalent to the rational formulas.
-/

namespace BiliVideo

/-! ### Byte-level helpers for `m4s.py` -/

/-- Block size used by `remove_leading_zeros` (`BLOCK_SIZE = 1024 * 1024` in
`m4s.py`). -/
def BLOCK_SIZE : Nat := 1024 * 1024

/-- Cuts a byte sequence into consecutive blocks of `BLOCK_SIZE` bytes, the
way the repeated `in_f.read(BLOCK_SIZE)` calls in `remove_leading_zeros`
deliver the file.  The `fuel` argument is the length of the list, which bounds
the number of reads. -/
def toBlocksAux : Nat → List Nat → List (List Nat)
  | 0, _ => []
  | _ + 1, [] => []
  | fuel + 1, a :: rest =>
    (a :: rest).take BLOCK_SIZE :: toBlocksAux fuel ((a :: rest).drop BLOCK_SIZE)

/-- The sequence of blocks returned by reading a file of bytes `data` in
`BLOCK_SIZE` chunks. -/
def toBlocks (data : List Nat) : List (List Nat) := toBlocksAux data.length data

/-- First phase loop of `remove_leading_zeros` (m4s.py lines 34-53), acting on
the remaining blocks of the input file.  Python's
`non_zero_pos = chunk.find(zero_byte)` with `zero_byte = b'\x00'` returns the
index of the first ZERO byte of the chunk, or `-1`; this is embedded as
`chunk.findIdx? (fun b => b == 0)`.  On `-1` the loop `continue`s (the chunk
is not written); otherwise `chunk[non_zero_pos:]` is written and the second
phase copies every remaining block verbatim (`rest.flatten`). -/
def stripPhase : List (List Nat) → List Nat
  | [] => []
  | chunk :: rest =>
    match chunk.findIdx? (fun b => b == 0) with
    | none => stripPhase rest
    | some non_zero_pos => chunk.drop non_zero_pos ++ rest.flatten

/-- Embedding of `remove_leading_zeros` (m4s.py lines 27-53): the byte content
written to `output_file` as a function of the byte content of `input_file`. -/
def remove_leading_zeros (data : List Nat) : List Nat :=
  stripPhase (toBlocks data)

/-! ### `sanitize_filename` (m4s.py lines 56-62) -/

/-- The punctuation characters of the character class in
`re.sub(r'[<>:"/\\|?*\x00-\x1f]', replacement, name)`. -/
def forbidden_chars : List Char := ['<', '>', ':', '\"', '/', '\\', '|', '?', '*']

/-- Membership in the regex character class `[<>:"/\\|?*\x00-\x1f]`. -/
def isForbidden (c : Char) : Bool :=
  forbidden_chars.contains c || decide (c.toNat ≤ 31)

/-- The whitespace set of Python's `str.strip` / `str.rstrip` (characters for
which `str.isspace()` holds). -/
def isPyWhitespace (c : Char) : Bool :=
  [' ', '\t', '\n', '\r', '\x0b', '\x0c', '\x1c', '\x1d', '\x1e', '\x1f',
   '\x85', '\xa0', '\u1680', '\u2000', '\u2001', '\u2002', '\u2003', '\u2004',
   '\u2005', '\u2006', '\u2007', '\u2008', '\u2009', '\u200a', '\u2028',
   '\u2029', '\u202f', '\u205f', '\u3000'].contains c

/-- Python `name.strip()`: remove leading and trailing whitespace. -/
def pyStrip (s : List Char) : List Char :=
  ((s.dropWhile isPyWhitespace).reverse.dropWhile isPyWhitespace).reverse

/-- Python `name.rstrip()`: remove trailing whitespace. -/
def pyRstrip (s : List Char) : List Char :=
  (s.reverse.dropWhile isPyWhitespace).reverse

/-- Python `re.sub(r'[<>:"/\\|?*\x00-\x1f]', replacement, name)`: every
character of the class is replaced by the replacement string. -/
def reSubForbidden (replacement : List Char) (s : List Char) : List Char :=
  s.foldr (fun c acc => if isForbidden c then replacement ++ acc else c :: acc) []

/-- Embedding of `sanitize_filename` (m4s.py lines 56-62):
`name.strip()`, then the regex substitution, then `[:200]`, then `rstrip()`.
The default replacement in the source is the single character `_`. -/
def sanitize_filename (name : List Char) (replacement : List Char) : List Char :=
  pyRstrip ((reSubForbidden replacement (pyStrip name)).take 200)

/-! ### URL / hostname helpers for `select_and_avoid_mcdn_url`
(download.py lines 297-321) -/

/-- ASCII lowering of one character, the effect of Python's `str.lower` on the
ASCII hostnames and codec strings this program handles. -/
def lowerAscii (c : Char) : Char :=
  if 'A' ≤ c ∧ c ≤ 'Z' then Char.ofNat (c.toNat + 32) else c

/-- Python's substring test `needle in hay` on code-point lists. -/
def containsSub (hay needle : List Char) : Bool :=
  match hay with
  | [] => needle.isEmpty
  | _ :: rest => needle.isPrefixOf hay || containsSub rest needle

/-- The characters after the first occurrence of `//`, or `none` when the URL
has no `//` (in which case `urlparse` yields no netloc). -/
def afterDoubleSlash : List Char → Option (List Char)
  | [] => none
  | [_] => none
  | a :: b :: rest =>
    if a = '/' ∧ b = '/' then some rest else afterDoubleSlash (b :: rest)

/-- Modelled from `urllib.parse.urlparse(url).hostname` for URLs whose first
`//` introduces the authority (the `scheme://netloc/...` form the program
handles): the netloc is the segment after `//` up to the next `/`, `?` or `#`;
userinfo up to the last `@` is dropped, a `:port` suffix is dropped, the
result is lowercased, and an empty host is reported as `none` (IPv6 bracket
hosts are not modelled). -/
def hostnameOf (url : String) : Option String :=
  match afterDoubleSlash url.data with
  | none => none
  | some rest =>
    let netloc := rest.takeWhile (fun c => decide (c ≠ '/' ∧ c ≠ '?' ∧ c ≠ '#'))
    let host_info := (netloc.reverse.takeWhile (fun c => c ≠ '@')).reverse
    let host := (host_info.takeWhile (fun c => c ≠ ':')).map lowerAscii
    if host.isEmpty then none else some (String.mk host)

/-- The fixed slow-CDN hostname patterns of `select_and_avoid_mcdn_url`. -/
def slow_cdn_patterns : List String :=
  [".mcdn.bilivideo.cn", "mountaintoys.cn", ".szbdyd.com"]

/-- Embedding of the inner `is_slow_cdn` of `select_and_avoid_mcdn_url`
(download.py lines 306-312): `any(pattern in hostname for pattern in ...)`;
when `urlparse` yields no hostname, `pattern in None` raises and the `except`
branch returns `False`. -/
def is_slow_cdn (url : String) : Bool :=
  match hostnameOf url with
  | none => false
  | some hostname => slow_cdn_patterns.any (fun pattern => containsSub hostname.data pattern.data)

/-- Embedding of `select_and_avoid_mcdn_url` (download.py lines 297-321):
return the base URL when it is not on a slow CDN, otherwise the first backup
URL that is not, otherwise the base URL. -/
def select_and_avoid_mcdn_url (base_url : String) (backup_urls : List String) : String :=
  if is_slow_cdn base_url = false then base_url
  else
    match backup_urls.find? (fun u => !is_slow_cdn u) with
    | some u => u
    | none => base_url

/-! ### Stream descriptors and the selection pipeline of `get_download_url` -/

/-- One entry of a `dash.video` list: the fields of the descriptor dictionary
read by `get_download_url`. -/
structure VideoStream where
  height : Nat
  bandwidth : Nat
  codecs : String
  baseUrl : String
  backupUrl : List String
  /-- The optional `duration` field, with `0` standing for an absent field
  (the code reads it as `stream.get('duration', 0)`). -/
  duration : Nat
deriving DecidableEq, Repr

/-- One entry of a `dash.audio` list. -/
structure AudioStream where
  bandwidth : Nat
  baseUrl : String
  backupUrl : List String
  /-- Optional `duration` field, `0` when absent. -/
  duration : Nat
deriving DecidableEq, Repr

/-- The codec classes distinguished by `get_codec_type`. -/
inductive CodecType
  | av1
  | hevc
  | avc
  | unknown
deriving DecidableEq, Repr, Fintype

/-- Embedding of the inner `get_codec_type` of `get_download_url`
(download.py lines 481-489): classify a codec string by lowercased substring
match. -/
def get_codec_type (codecs : String) : CodecType :=
  let codec_lower := codecs.data.map lowerAscii
  if containsSub codec_lower "av01".data || containsSub codec_lower "av1".data then .av1
  else if containsSub codec_lower "hev1".data || containsSub codec_lower "hevc".data then .hevc
  else if containsSub codec_lower "avc1".data || containsSub codec_lower "avc".data then .avc
  else .unknown

/-- Embedding of the `codec_priority` tables of `get_download_url`
(download.py lines 491-499), one table per preferred codec, default shared by
`'auto'` and any other value. -/
def codec_priority (preferred_codec : String) (c : CodecType) : Nat :=
  if preferred_codec = "av1" then
    match c with | .av1 => 1 | .hevc => 2 | .avc => 3 | .unknown => 999
  else if preferred_codec = "hevc" then
    match c with | .av1 => 2 | .hevc => 1 | .avc => 3 | .unknown => 999
  else if preferred_codec = "avc" then
    match c with | .av1 => 2 | .hevc => 3 | .avc => 1 | .unknown => 999
  else
    match c with | .av1 => 1 | .hevc => 2 | .avc => 3 | .unknown => 999

/-- The sort key of `sorted(matching_videos, key=lambda v: (codec_priority...,
v.get('bandwidth', 0)))` (download.py lines 513-516). -/
def sortKey (preferred_codec : String) (v : VideoStream) : Nat × Nat :=
  (codec_priority preferred_codec (get_codec_type v.codecs), v.bandwidth)

/-- Lexicographic order on sort keys, the order of Python tuple comparison. -/
def lexLe (a b : Nat × Nat) : Prop :=
  a.1 < b.1 ∨ (a.1 = b.1 ∧ a.2 ≤ b.2)

instance : DecidableRel lexLe := fun a b =>
  inferInstanceAs (Decidable (a.1 < b.1 ∨ (a.1 = b.1 ∧ a.2 ≤ b.2)))

instance : IsTrans (Nat × Nat) lexLe :=
  ⟨by intro a b c hab hbc; unfold lexLe at *; omega⟩

instance : IsTotal (Nat × Nat) lexLe :=
  ⟨by intro a b; unfold lexLe; omega⟩

/-- Comparison of two video streams by `(codec priority, bandwidth)`. -/
def keyLe (preferred_codec : String) (a b : VideoStream) : Prop :=
  lexLe (sortKey preferred_codec a) (sortKey preferred_codec b)

instance (preferred_codec : String) : DecidableRel (keyLe preferred_codec) := fun a b =>
  inferInstanceAs (Decidable (lexLe (sortKey preferred_codec a) (sortKey preferred_codec b)))

instance (preferred_codec : String) : IsTrans VideoStream (keyLe preferred_codec) :=
  ⟨fun _ _ _ hab hbc => Trans.trans (r := lexLe) (s := lexLe) hab hbc⟩

instance (preferred_codec : String) : IsTotal VideoStream (keyLe preferred_codec) :=
  ⟨fun a b => IsTotal.total (r := lexLe) (sortKey preferred_codec a) (sortKey preferred_codec b)⟩

/-- The stable sort `sorted(matching_videos, key=(codec priority, bandwidth))`
of download.py lines 513-516 (insertion sort with a total preorder computes
the same stable result as Python's `sorted`). -/
def sortVideos (preferred_codec : String) (l : List VideoStream) : List VideoStream :=
  List.insertionSort (keyLe preferred_codec) l

/-- `audio[0]['bandwidth']` when the audio list is non-empty, else `0`
(the code uses `audio_data.get('bandwidth', 0) if audio_data else 0`). -/
def audioBandwidth (audio : List AudioStream) : Nat :=
  match audio with
  | [] => 0
  | a :: _ => a.bandwidth

/-- `audio[0]['duration']` when present, else `0`. -/
def audioDuration (audio : List AudioStream) : Nat :=
  match audio with
  | [] => 0
  | a :: _ => a.duration

/-- The `stream.get('duration', 0) or (audio_stream.get('duration', 0) ...)`
fallback of `estimate_size` (Python `or` keeps the left value when it is
non-zero). -/
def durationFallback (v : VideoStream) (audio : List AudioStream) : Nat :=
  if v.duration ≠ 0 then v.duration else audioDuration audio

/-- Embedding of the inner `estimate_size` of `get_download_url`
(download.py lines 502-510) in exact rational arithmetic: estimated megabytes
`(total_bandwidth / 8) * duration_seconds / (1024 * 1024)`. -/
def estimate_size (v : VideoStream) (audio : List AudioStream) (timelength : Nat) : ℚ :=
  let total_bandwidth : ℚ := ((v.bandwidth + audioBandwidth audio : Nat) : ℚ)
  let bytes_per_second := total_bandwidth / 8
  let duration_seconds : ℚ :=
    if 0 < timelength then (timelength : ℚ) / 1000
    else ((durationFallback v audio : Nat) : ℚ)
  bytes_per_second * duration_seconds / (1024 * 1024)

/-- The test `estimated_size <= file_size_limit` of download.py lines 571 and
602, cross-multiplied to an exact integer comparison (proved equivalent to the
rational formula in `estimateFits_iff`). -/
def estimateFits (file_size_limit : Nat) (audio : List AudioStream) (timelength : Nat)
    (v : VideoStream) : Bool :=
  if 0 < timelength then
    decide ((v.bandwidth + audioBandwidth audio) * timelength ≤
      file_size_limit * 1024 * 1024 * 8 * 1000)
  else
    decide ((v.bandwidth + audioBandwidth audio) * durationFallback v audio ≤
      file_size_limit * 1024 * 1024 * 8)

/-- The ceiling `max_total_bandwidth = (file_size_limit * 1024 * 1024 * 8) /
assumed_duration` with `assumed_duration = 300` of download.py lines 539-540,
in exact rational arithmetic. -/
def max_total_bandwidth (file_size_limit : Nat) : ℚ :=
  (file_size_limit * 1024 * 1024 * 8 : ℚ) / 300

/-- The test `total_bandwidth <= max_total_bandwidth` of download.py line 548,
cross-multiplied to an exact integer comparison (proved equivalent to the
rational formula in `qualifiesBitrate_iff`). -/
def qualifiesBitrate (file_size_limit : Nat) (audioBw : Nat) (v : VideoStream) : Bool :=
  decide ((v.bandwidth + audioBw) * 300 ≤ file_size_limit * 1024 * 1024 * 8)

/-- Common shape of the two selection loops of `get_download_url` (lines
543-555 and 600-609): take the first element satisfying the predicate, and
when none does, take the last element (`sorted_videos[-1]`); `none` only for
an empty list. -/
def pickFirstOrLast {α : Type} (p : α → Bool) (l : List α) : Option α :=
  match l.find? p with
  | some v => some v
  | none => l.getLast?

/-- Embedding of the duration-unknown selection policy of `get_download_url`
(download.py lines 537-555, the `timelength == 0 and not is_bangumi` branch):
walk the sorted candidates, take the first whose combined bitrate is at most
the ceiling, else `sorted_videos[-1]`. -/
def selectVideoNoDuration (preferred_codec : String) (file_size_limit : Nat)
    (audio : List AudioStream) (matching_videos : List VideoStream) : Option VideoStream :=
  pickFirstOrLast (qualifiesBitrate file_size_limit (audioBandwidth audio))
    (sortVideos preferred_codec matching_videos)

/-- Embedding of the exact-quality known-duration selection policy of
`get_download_url` (download.py lines 598-609, non-series non-smart branch):
walk the sorted candidates, take the first whose estimated size fits the
limit, else `sorted_videos[-1]`. -/
def selectVideoExact (preferred_codec : String) (file_size_limit : Nat)
    (audio : List AudioStream) (timelength : Nat)
    (matching_videos : List VideoStream) : Option VideoStream :=
  pickFirstOrLast (estimateFits file_size_limit audio timelength)
    (sortVideos preferred_codec matching_videos)

/-! ### Height matching ladder (download.py lines 449-475) -/

/-- Descending order on heights, for
`sorted(..., key=lambda x: x.get('height', 0), reverse=True)`. -/
def heightGe (a b : VideoStream) : Prop := b.height ≤ a.height

instance : DecidableRel heightGe := fun a b =>
  inferInstanceAs (Decidable (b.height ≤ a.height))

/-- Python `min(v.get('height', 0) for v in video)`, with the `if video else
0` guard of download.py line 473. -/
def minHeight : List VideoStream → Nat
  | [] => 0
  | v :: vs =>
    match vs with
    | [] => v.height
    | _ :: _ => Nat.min v.height (minHeight vs)

/-- Embedding of the non-smart height-matching ladder of `get_download_url`
(download.py lines 455-475): exact height match, else the highest available
height below the target, else the lowest available height. -/
def heightMatching (target_height : Nat) (video : List VideoStream) : List VideoStream :=
  let matching1 := video.filter (fun v => v.height == target_height)
  let matching2 :=
    if matching1.isEmpty then
      match List.insertionSort heightGe (video.filter (fun v => decide (v.height ≤ target_height))) with
      | [] => []
      | top :: rest => (top :: rest).filter (fun v => v.height == top.height)
    else matching1
  if matching2.isEmpty then
    video.filter (fun v => v.height == minHeight video)
  else matching2

/-! ### The `durl` branch of `get_download_url` (download.py lines 406-419) -/

/-- One entry of a `durl` list: `url` plus `backup_url` (default `[]`). -/
structure DurlEntry where
  url : String
  backup_url : List String
deriving DecidableEq, Repr

/-- The dictionary returned by `get_download_url`. -/
structure UrlResult where
  videoUrl : Option String
  audioUrl : Option String
deriving DecidableEq, Repr

/-- Embedding of the `durl`-shaped branch of `get_download_url` (download.py
lines 407-419) as a fallible computation: with no entries the code logs and
returns `videoUrl = None, audioUrl = None`; otherwise it returns the
CDN-filtered URL of the first entry.  No path of this branch raises. -/
def handle_durl (durl : List DurlEntry) : Except String UrlResult :=
  match durl with
  | [] => Except.ok { videoUrl := none, audioUrl := none }
  | first_durl :: _ =>
    Except.ok
      { videoUrl := some (select_and_avoid_mcdn_url first_durl.url first_durl.backup_url),
        audioUrl := none }

/-! ### `normal_download_b_file` (download.py lines 648-704) -/

/-- The dictionary returned by `normal_download_b_file`. -/
structure DownloadResult where
  fullFileName : String
  totalLen : Nat
deriving DecidableEq, Repr

/-- Embedding of `normal_download_b_file` as a pure map from the advertised
`content-length` header (`none` when absent, read as
`int(response.headers.get('content-length', 0))`) and the sequence of body
chunks to the returned dictionary together with the bytes written to disk
(chunks are written under the `if chunk:` guard; progress reporting has no
effect on either). -/
def normal_download_b_file (full_file_name : String) (content_length : Option Nat)
    (chunks : List (List Nat)) : DownloadResult × List Nat :=
  let total_len := content_length.getD 0
  let written := chunks.foldl (fun acc chunk => if chunk.isEmpty then acc else acc ++ chunk) []
  ({ fullFileName := full_file_name, totalLen := total_len }, written)

/-! ### Concrete sample descriptors used to evaluate the policies -/

/-- Sample 1080p AVC stream at 100 bit/s. -/
def c3Low : VideoStream :=
  { height := 1080, bandwidth := 100, codecs := "avc1.640032",
    baseUrl := "https://upos-hz.bilivideo.com/low.m4s", backupUrl := [], duration := 0 }

/-- Sample 1080p AVC stream at 200 bit/s. -/
def c3High : VideoStream :=
  { height := 1080, bandwidth := 200, codecs := "avc1.640032",
    baseUrl := "https://upos-hz.bilivideo.com/high.m4s", backupUrl := [], duration := 0 }

/-- Sample 1080p AV1 stream at 1000 bit/s. -/
def c4Av1 : VideoStream :=
  { height := 1080, bandwidth := 1000, codecs := "av01.0.08M.08",
    baseUrl := "https://upos-hz.bilivideo.com/a.m4s", backupUrl := [], duration := 0 }

/-- Sample 1080p AVC stream at 500 bit/s. -/
def c4Avc : VideoStream :=
  { height := 1080, bandwidth := 500, codecs := "avc1.640032",
    baseUrl := "https://upos-hz.bilivideo.com/b.m4s", backupUrl := [], duration := 0 }

/-- Sample 480p AVC stream. -/
def c5Sample : VideoStream :=
  { height := 480, bandwidth := 800, codecs := "avc1.64001E",
    baseUrl := "https://upos-hz.bilivideo.com/v.m4s", backupUrl := [], duration := 0 }

/-! ## Theorems -/

/-- Reflexivity of the tuple comparison. -/
theorem lexLe_refl (a : Nat × Nat) : lexLe a a := Or.inr ⟨rfl, le_refl _⟩

/-- Reflexivity of the video-stream key comparison. -/
theorem keyLe_refl (preferred_codec : String) (v : VideoStream) : keyLe preferred_codec v v :=
  lexLe_refl _

/-- In a sorted list, the element delivered by `find?` is minimal (with
respect to the sort order) among all elements satisfying the predicate. -/
theorem find?_min_of_sorted {α : Type} {r : α → α → Prop} (hrefl : ∀ a : α, r a a)
    {p : α → Bool} :
    ∀ {l : List α}, l.Sorted r → ∀ {v : α}, l.find? p = some v →
      ∀ w ∈ l, p w = true → r v w := by
  intro l
  induction l with
  | nil => intro _ v hfind; simp at hfind
  | cons x t ih =>
    intro hs v hfind w hw hpw
    rcases List.sorted_cons.mp hs with ⟨hx, ht⟩
    by_cases hpx : p x
    · rw [List.find?_cons_of_pos _ hpx] at hfind
      injection hfind with hv
      subst hv
      rcases List.mem_cons.mp hw with hwx | hwt
      · rw [hwx]; exact hrefl x
      · exact hx w hwt
    · rw [List.find?_cons_of_neg _ hpx] at hfind
      rcases List.mem_cons.mp hw with hwx | hwt
      · rw [hwx] at hpw; exact absurd hpw hpx
      · exact ih ht hfind w hwt hpw

/-- In a sorted list, the last element is maximal. -/
theorem getLast_max_of_sorted {α : Type} {r : α → α → Prop} (hrefl : ∀ a : α, r a a) :
    ∀ {l : List α}, l.Sorted r → ∀ (h : l ≠ []), ∀ w ∈ l, r w (l.getLast h) := by
  intro l
  induction l with
  | nil => intro _ h; exact absurd rfl h
  | cons x t ih =>
    intro hs h w hw
    rcases List.sorted_cons.mp hs with ⟨hx, ht⟩
    cases t with
    | nil =>
      rcases List.mem_cons.mp hw with hwx | hwt
      · rw [hwx]; exact hrefl x
      · cases hwt
    | cons y t2 =>
      rw [List.getLast_cons (by simp)]
      rcases List.mem_cons.mp hw with hwx | hwt
      · rw [hwx]; exact hx _ (List.getLast_mem (by simp))
      · exact ih ht (by simp) w hwt

/-- Behaviour of the `first match else last` loop shape on a sorted list:
it never returns `none`, the result is a member, a returned match is minimal
among matches, and a fallback result is maximal. -/
theorem pickFirstOrLast_sorted_spec {α : Type} {r : α → α → Prop} (hrefl : ∀ a : α, r a a)
    (p : α → Bool) {s : List α} (hs : s.Sorted r) (hne : s ≠ []) :
    ∃ v, pickFirstOrLast p s = some v ∧ v ∈ s ∧
      ((∃ w ∈ s, p w = true) → p v = true ∧ ∀ w ∈ s, p w = true → r v w) ∧
      ((∀ w ∈ s, p w = false) → ∀ w ∈ s, r w v) := by
  cases hfind : s.find? p with
  | some v =>
    refine ⟨v, by simp [pickFirstOrLast, hfind], List.mem_of_find?_eq_some hfind, ?_, ?_⟩
    · intro _
      exact ⟨List.find?_some hfind, find?_min_of_sorted hrefl hs hfind⟩
    · intro hall
      have hv := List.find?_some hfind
      rw [hall v (List.mem_of_find?_eq_some hfind)] at hv
      cases hv
  | none =>
    refine ⟨s.getLast hne,
      by simp [pickFirstOrLast, hfind, List.getLast?_eq_getLast_of_ne_nil hne], ?_, ?_, ?_⟩
    · exact List.getLast_mem hne
    · rintro ⟨w, hw, hpw⟩
      have := List.find?_eq_none.mp hfind w hw
      exact absurd hpw this
    · intro _
      exact getLast_max_of_sorted hrefl hs hne

/-- The `first match else last` loop applied to the stable
codec-then-bitrate sort of an arbitrary candidate list. -/
theorem pick_on_sort_spec (preferred_codec : String) (p : VideoStream → Bool)
    (l : List VideoStream) (h : l ≠ []) :
    ∃ v, pickFirstOrLast p (sortVideos preferred_codec l) = some v ∧ v ∈ l ∧
      ((∃ w ∈ l, p w = true) → p v = true ∧
        ∀ w ∈ l, p w = true → keyLe preferred_codec v w) ∧
      ((∀ w ∈ l, p w = false) → ∀ w ∈ l, keyLe preferred_codec w v) := by
  have hperm : List.Perm (sortVideos preferred_codec l) l := List.perm_insertionSort _ l
  have hsor : (sortVideos preferred_codec l).Sorted (keyLe preferred_codec) :=
    List.sorted_insertionSort _ l
  have hne : sortVideos preferred_codec l ≠ [] := by
    intro hnil
    have hlen := hperm.length_eq
    rw [hnil] at hlen
    exact h (List.length_eq_zero.mp hlen.symm)
  obtain ⟨v, hpick, hmem, hfit, hnofit⟩ :=
    pickFirstOrLast_sorted_spec (keyLe_refl preferred_codec) p hsor hne
  refine ⟨v, hpick, hperm.mem_iff.mp hmem, ?_, ?_⟩
  · rintro ⟨w, hw, hpw⟩
    obtain ⟨hv, hmin⟩ := hfit ⟨w, hperm.mem_iff.mpr hw, hpw⟩
    exact ⟨hv, fun u hu hpu => hmin u (hperm.mem_iff.mpr hu) hpu⟩
  · intro hall
    exact fun w hw => hnofit (fun u hu => hall u (hperm.mem_iff.mp hu)) w (hperm.mem_iff.mpr hw)

/-- Fidelity bridge: the integer comparison of `qualifiesBitrate` is exactly
the rational comparison `total_bandwidth <= max_total_bandwidth` of
download.py line 548. -/
theorem qualifiesBitrate_iff (file_size_limit audioBw : Nat) (v : VideoStream) :
    qualifiesBitrate file_size_limit audioBw v = true ↔
      ((v.bandwidth + audioBw : Nat) : ℚ) ≤ max_total_bandwidth file_size_limit := by
  unfold qualifiesBitrate max_total_bandwidth
  rw [decide_eq_true_eq, le_div_iff₀ (by norm_num : (0 : ℚ) < 300)]
  constructor <;> intro h <;> exact_mod_cast h

/-- Fidelity bridge: the integer comparison of `estimateFits` is exactly the
rational comparison `estimated_size <= file_size_limit` of download.py
line 602. -/
theorem estimateFits_iff (file_size_limit : Nat) (audio : List AudioStream)
    (timelength : Nat) (v : VideoStream) :
    estimateFits file_size_limit audio timelength v = true ↔
      estimate_size v audio timelength ≤ (file_size_limit : ℚ) := by
  unfold estimateFits estimate_size
  by_cases ht : 0 < timelength
  · simp only [if_pos ht, decide_eq_true_eq]
    rw [div_mul_div_comm, div_div, div_le_iff₀ (by norm_num : (0 : ℚ) < 8 * 1000 * (1024 * 1024))]
    constructor <;> intro h
    · calc ((v.bandwidth + audioBandwidth audio : Nat) : ℚ) * (timelength : ℚ)
          = (((v.bandwidth + audioBandwidth audio) * timelength : Nat) : ℚ) := by push_cast; ring
        _ ≤ ((file_size_limit * 1024 * 1024 * 8 * 1000 : Nat) : ℚ) := by exact_mod_cast h
        _ = (file_size_limit : ℚ) * (8 * 1000 * (1024 * 1024)) := by push_cast; ring
    · have h2 : (((v.bandwidth + audioBandwidth audio) * timelength : Nat) : ℚ) ≤
          ((file_size_limit * 1024 * 1024 * 8 * 1000 : Nat) : ℚ) := by
        calc (((v.bandwidth + audioBandwidth audio) * timelength : Nat) : ℚ)
            = ((v.bandwidth + audioBandwidth audio : Nat) : ℚ) * (timelength : ℚ) := by
              push_cast; ring
          _ ≤ (file_size_limit : ℚ) * (8 * 1000 * (1024 * 1024)) := h
          _ = ((file_size_limit * 1024 * 1024 * 8 * 1000 : Nat) : ℚ) := by push_cast; ring
      exact_mod_cast h2
  · simp only [if_neg ht, decide_eq_true_eq]
    rw [div_mul_eq_mul_div, div_div, div_le_iff₀ (by norm_num : (0 : ℚ) < 8 * (1024 * 1024))]
    constructor <;> intro h
    · calc ((v.bandwidth + audioBandwidth audio : Nat) : ℚ) * ((durationFallback v audio : Nat) : ℚ)
          = (((v.bandwidth + audioBandwidth audio) * durationFallback v audio : Nat) : ℚ) := by
            push_cast; ring
        _ ≤ ((file_size_limit * 1024 * 1024 * 8 : Nat) : ℚ) := by exact_mod_cast h
        _ = (file_size_limit : ℚ) * (8 * (1024 * 1024)) := by push_cast; ring
    · have h2 : (((v.bandwidth + audioBandwidth audio) * durationFallback v audio : Nat) : ℚ) ≤
          ((file_size_limit * 1024 * 1024 * 8 : Nat) : ℚ) := by
        calc (((v.bandwidth + audioBandwidth audio) * durationFallback v audio : Nat) : ℚ)
            = ((v.bandwidth + audioBandwidth audio : Nat) : ℚ) *
              ((durationFallback v audio : Nat) : ℚ) := by push_cast; ring
          _ ≤ (file_size_limit : ℚ) * (8 * (1024 * 1024)) := h
          _ = ((file_size_limit * 1024 * 1024 * 8 : Nat) : ℚ) := by push_cast; ring
      exact_mod_cast h2

/-- C3 (amended): in the duration-unknown non-series policy the selector
walks the candidates sorted by codec priority then ascending bitrate, takes
the first whose combined bitrate is at most the ceiling derived from the
size limit and the fixed 300-second reference duration, and when no candidate
qualifies it takes the LAST candidate of the sorted list — the one with the
maximal (codec-priority, bitrate) key — not the lowest-bitrate one; it never
returns empty on a non-empty candidate list. -/
theorem selectVideoNoDuration_policy (preferred_codec : String) (file_size_limit : Nat)
    (audio : List AudioStream) (matching_videos : List VideoStream)
    (h : matching_videos ≠ []) :
    ∃ v, selectVideoNoDuration preferred_codec file_size_limit audio matching_videos = some v ∧
      v ∈ matching_videos ∧
      ((∃ w ∈ matching_videos,
          qualifiesBitrate file_size_limit (audioBandwidth audio) w = true) →
        qualifiesBitrate file_size_limit (audioBandwidth audio) v = true ∧
        ∀ w ∈ matching_videos,
          qualifiesBitrate file_size_limit (audioBandwidth audio) w = true →
            keyLe preferred_codec v w) ∧
      ((∀ w ∈ matching_videos,
          qualifiesBitrate file_size_limit (audioBandwidth audio) w = false) →
        ∀ w ∈ matching_videos, keyLe preferred_codec w v) :=
  pick_on_sort_spec preferred_codec _ matching_videos h

/-- Witness for C3's amended theorem at a concrete one-candidate list. -/
theorem selectVideoNoDuration_policy_witness :
    ∃ v, selectVideoNoDuration "auto" 100 [] [c3Low] = some v ∧
      v ∈ [c3Low] ∧
      ((∃ w ∈ [c3Low], qualifiesBitrate 100 (audioBandwidth []) w = true) →
        qualifiesBitrate 100 (audioBandwidth []) v = true ∧
        ∀ w ∈ [c3Low], qualifiesBitrate 100 (audioBandwidth []) w = true →
          keyLe "auto" v w) ∧
      ((∀ w ∈ [c3Low], qualifiesBitrate 100 (audioBandwidth []) w = false) →
        ∀ w ∈ [c3Low], keyLe "auto" w v) :=
  selectVideoNoDuration_policy "auto" 100 [] [c3Low] (List.cons_ne_nil _ _)

/-- C3 counterexample: with a size limit of 0 MB no candidate's combined
bitrate fits the 300-second ceiling, and the code picks `sorted_videos[-1]` —
the HIGHER-bitrate candidate `c3High`, not the lowest-bitrate `c3Low` the
claim promises. -/
theorem selectVideoNoDuration_fallback_not_lowest :
    qualifiesBitrate 0 (audioBandwidth []) c3Low = false ∧
    qualifiesBitrate 0 (audioBandwidth []) c3High = false ∧
    c3Low.bandwidth < c3High.bandwidth ∧
    selectVideoNoDuration "auto" 0 [] [c3Low, c3High] = some c3High ∧
    c3High ≠ c3Low := by decide

/-- C4 (amended): in the exact-quality known-duration policy the selector
walks the candidates sorted by codec priority then ascending bitrate and
accepts the first whose estimated size fits the limit; when none fits it
accepts the LAST candidate of the sorted list — maximal in the
(codec-priority, bitrate) order, which is the highest-bitrate candidate only
within the lowest-ranked codec class present. -/
theorem selectVideoExact_policy (preferred_codec : String) (file_size_limit : Nat)
    (audio : List AudioStream) (timelength : Nat) (matching_videos : List VideoStream)
    (h : matching_videos ≠ []) :
    ∃ v, selectVideoExact preferred_codec file_size_limit audio timelength matching_videos
        = some v ∧
      v ∈ matching_videos ∧
      ((∃ w ∈ matching_videos, estimateFits file_size_limit audio timelength w = true) →
        estimateFits file_size_limit audio timelength v = true ∧
        ∀ w ∈ matching_videos, estimateFits file_size_limit audio timelength w = true →
          keyLe preferred_codec v w) ∧
      ((∀ w ∈ matching_videos, estimateFits file_size_limit audio timelength w = false) →
        ∀ w ∈ matching_videos, keyLe preferred_codec w v) :=
  pick_on_sort_spec preferred_codec _ matching_videos h

/-- Witness for C4's amended theorem at a concrete one-candidate list. -/
theorem selectVideoExact_policy_witness :
    ∃ v, selectVideoExact "auto" 100 [] 1000 [c4Avc] = some v ∧
      v ∈ [c4Avc] ∧
      ((∃ w ∈ [c4Avc], estimateFits 100 [] 1000 w = true) →
        estimateFits 100 [] 1000 v = true ∧
        ∀ w ∈ [c4Avc], estimateFits 100 [] 1000 w = true → keyLe "auto" v w) ∧
      ((∀ w ∈ [c4Avc], estimateFits 100 [] 1000 w = false) →
        ∀ w ∈ [c4Avc], keyLe "auto" w v) :=
  selectVideoExact_policy "auto" 100 [] 1000 [c4Avc] (List.cons_ne_nil _ _)

/-- C4 counterexample: with a 0 MB limit and a 1-second duration nothing
fits; the candidates are an AV1 stream at 1000 bit/s and an AVC stream at
500 bit/s, `sorted_videos[-1]` is the AVC stream — NOT the highest-bitrate
candidate, which is the AV1 stream. -/
theorem selectVideoExact_fallback_not_highest :
    estimateFits 0 [] 1000 c4Av1 = false ∧
    estimateFits 0 [] 1000 c4Avc = false ∧
    c4Avc.bandwidth < c4Av1.bandwidth ∧
    selectVideoExact "auto" 0 [] 1000 [c4Av1, c4Avc] = some c4Avc ∧
    c4Avc ≠ c4Av1 := by decide

/-- A list of the shape `if l.isEmpty then fallback else l` is non-empty as
soon as the fallback is. -/
theorem ifEmpty_ne_nil {α : Type} (fallback l : List α) (hA : fallback ≠ []) :
    (if l.isEmpty then fallback else l) ≠ [] := by
  cases l with
  | nil => simpa using hA
  | cons a t => simp

/-- Python's `min` over the heights of a non-empty descriptor list is attained
by some descriptor. -/
theorem minHeight_attained (video : List VideoStream) (h : video ≠ []) :
    ∃ v, v ∈ video ∧ v.height = minHeight video := by
  induction video with
  | nil => exact absurd rfl h
  | cons v vs ih =>
    cases vs with
    | nil => exact ⟨v, List.mem_cons_self _ _, rfl⟩
    | cons w rest =>
      obtain ⟨u, hu, hmin⟩ := ih (List.cons_ne_nil _ _)
      by_cases hle : v.height ≤ minHeight (w :: rest)
      · refine ⟨v, List.mem_cons_self _ _, ?_⟩
        show v.height = min v.height (minHeight (w :: rest))
        exact (min_eq_left hle).symm
      · refine ⟨u, List.mem_cons_of_mem _ hu, ?_⟩
        show u.height = min v.height (minHeight (w :: rest))
        rw [min_eq_right (Nat.le_of_not_le hle)]
        exact hmin

/-- C5: for every requested target height, the three-step height-matching
ladder (exact match, then highest height below the target, then lowest
available height) yields a non-empty candidate set whenever the
video-descriptor list is non-empty. -/
theorem heightMatching_nonempty (target_height : Nat) (video : List VideoStream)
    (h : video ≠ []) : heightMatching target_height video ≠ [] := by
  obtain ⟨v, hv, hh⟩ := minHeight_attained video h
  exact ifEmpty_ne_nil _ _
    (List.ne_nil_of_mem (List.mem_filter.mpr ⟨hv, by simp [hh]⟩))

/-- Witness for C5 at the spec's forced-upgrade scenario: a single 480p
descriptor and a 1080p request still yield a non-empty candidate set. -/
theorem heightMatching_nonempty_witness : heightMatching 1080 [c5Sample] ≠ [] :=
  heightMatching_nonempty 1080 [c5Sample] (List.cons_ne_nil _ _)

/-- The download loop's guarded accumulation writes exactly the concatenation
of the received chunks. -/
theorem foldl_write_eq_flatten (chunks : List (List Nat)) :
    ∀ acc : List Nat,
      chunks.foldl (fun acc chunk => if chunk.isEmpty then acc else acc ++ chunk) acc
        = acc ++ chunks.flatten := by
  induction chunks with
  | nil => intro acc; simp
  | cons c t ih =>
    intro acc
    cases c with
    | nil =>
      calc List.foldl (fun acc chunk => if chunk.isEmpty then acc else acc ++ chunk) acc ([] :: t)
          = List.foldl (fun acc chunk => if chunk.isEmpty then acc else acc ++ chunk) acc t := rfl
        _ = acc ++ t.flatten := ih acc
        _ = acc ++ (([] : List Nat) :: t).flatten := by simp
    | cons b bs =>
      calc List.foldl (fun acc chunk => if chunk.isEmpty then acc else acc ++ chunk) acc
            ((b :: bs) :: t)
          = List.foldl (fun acc chunk => if chunk.isEmpty then acc else acc ++ chunk)
            (acc ++ (b :: bs)) t := rfl
        _ = (acc ++ (b :: bs)) ++ t.flatten := ih _
        _ = acc ++ ((b :: bs) :: t).flatten := by simp [List.append_assoc]

/-- C6 (amended): `normal_download_b_file` returns as `totalLen` the
advertised `content-length` (0 when the header is absent), while the bytes
written to disk are exactly the concatenation of the received chunks; the
returned count equals the bytes written only when the advertised length
matches the received body length. -/
theorem normal_download_returns_content_length (full_file_name : String)
    (content_length : Option Nat) (chunks : List (List Nat)) :
    (normal_download_b_file full_file_name content_length chunks).1.totalLen
        = content_length.getD 0 ∧
    (normal_download_b_file full_file_name content_length chunks).2 = chunks.flatten ∧
    ((normal_download_b_file full_file_name content_length chunks).1.totalLen
        = (normal_download_b_file full_file_name content_length chunks).2.length ↔
      content_length.getD 0 = chunks.flatten.length) := by
  have hflat : (normal_download_b_file full_file_name content_length chunks).2
      = chunks.flatten := by
    show chunks.foldl (fun acc chunk => if chunk.isEmpty then acc else acc ++ chunk) []
        = chunks.flatten
    rw [foldl_write_eq_flatten]
    simp
  exact ⟨rfl, hflat, by rw [hflat]; exact Iff.rfl⟩

/-- C6 counterexample: a completed transfer of a 3-byte body with no
`content-length` header writes 3 bytes to disk but returns `totalLen = 0` —
the return value is the advertised length, not the byte count written. -/
theorem normal_download_totalLen_not_bytes_written :
    (normal_download_b_file "video.m4s" none [[1, 2, 3]]).1.totalLen = 0 ∧
    (normal_download_b_file "video.m4s" none [[1, 2, 3]]).2.length = 3 ∧
    (0 : Nat) ≠ 3 := ⟨rfl, rfl, by decide⟩

/-- C7 (amended): the `durl` branch of `get_download_url` never raises — for
every `durl` list, including the empty one, it returns a success value. -/
theorem handle_durl_never_error (durl : List DurlEntry) :
    ∃ r : UrlResult, handle_durl durl = Except.ok r := by
  cases durl with
  | nil => exact ⟨_, rfl⟩
  | cons a t => exact ⟨_, rfl⟩

/-- C7 counterexample: a `durl` response with no entries makes the operation
RETURN the success value with both URLs absent — no `EmptyManifestError` (or
any error) is raised. -/
theorem handle_durl_empty_returns_ok :
    handle_durl [] = Except.ok { videoUrl := none, audioUrl := none } := rfl

/-- C8: for every preferred-codec choice the priority table is injective on
the four codec classes (a total order), `unknown` gets priority 999 and sorts
strictly last, and each of the three named preferences puts the preferred
codec first while the other two named codecs keep the default relative order
(av1 before hevc before avc). -/
theorem codec_priority_total_order (preferred_codec : String) :
    codec_priority preferred_codec CodecType.unknown = 999 ∧
    (∀ c : CodecType, c ≠ CodecType.unknown →
      codec_priority preferred_codec c < codec_priority preferred_codec CodecType.unknown) ∧
    List.Nodup
      [codec_priority preferred_codec CodecType.av1,
       codec_priority preferred_codec CodecType.hevc,
       codec_priority preferred_codec CodecType.avc,
       codec_priority preferred_codec CodecType.unknown] ∧
    (preferred_codec = "av1" →
      codec_priority preferred_codec CodecType.av1 < codec_priority preferred_codec CodecType.hevc ∧
      codec_priority preferred_codec CodecType.hevc < codec_priority preferred_codec CodecType.avc) ∧
    (preferred_codec = "hevc" →
      codec_priority preferred_codec CodecType.hevc < codec_priority preferred_codec CodecType.av1 ∧
      codec_priority preferred_codec CodecType.av1 < codec_priority preferred_codec CodecType.avc) ∧
    (preferred_codec = "avc" →
      codec_priority preferred_codec CodecType.avc < codec_priority preferred_codec CodecType.av1 ∧
      codec_priority preferred_codec CodecType.av1 < codec_priority preferred_codec CodecType.hevc) := by
  by_cases h1 : preferred_codec = "av1"
  · subst h1; decide
  · by_cases h2 : preferred_codec = "hevc"
    · subst h2; decide
    · by_cases h3 : preferred_codec = "avc"
      · subst h3; decide
      · have hcp1 : codec_priority preferred_codec CodecType.av1 = 1 := by
          simp [codec_priority, h1, h2, h3]
        have hcp2 : codec_priority preferred_codec CodecType.hevc = 2 := by
          simp [codec_priority, h1, h2, h3]
        have hcp3 : codec_priority preferred_codec CodecType.avc = 3 := by
          simp [codec_priority, h1, h2, h3]
        have hcp4 : codec_priority preferred_codec CodecType.unknown = 999 := by
          simp [codec_priority, h1, h2, h3]
        refine ⟨hcp4, ?_, ?_, fun hh => absurd hh h1, fun hh => absurd hh h2,
          fun hh => absurd hh h3⟩
        · intro c hc
          cases c with
          | av1 => rw [hcp1, hcp4]; decide
          | hevc => rw [hcp2, hcp4]; decide
          | avc => rw [hcp3, hcp4]; decide
          | unknown => exact absurd rfl hc
        · rw [hcp1, hcp2, hcp3, hcp4]; decide

/-- Witness for C8 at the three named preferences, discharging the
premises concretely. -/
theorem codec_priority_total_order_witness :
    (codec_priority "av1" CodecType.av1 < codec_priority "av1" CodecType.unknown) ∧
    (codec_priority "av1" CodecType.av1 < codec_priority "av1" CodecType.hevc ∧
      codec_priority "av1" CodecType.hevc < codec_priority "av1" CodecType.avc) ∧
    (codec_priority "hevc" CodecType.hevc < codec_priority "hevc" CodecType.av1 ∧
      codec_priority "hevc" CodecType.av1 < codec_priority "hevc" CodecType.avc) ∧
    (codec_priority "avc" CodecType.avc < codec_priority "avc" CodecType.av1 ∧
      codec_priority "avc" CodecType.av1 < codec_priority "avc" CodecType.hevc) :=
  ⟨(codec_priority_total_order "av1").2.1 CodecType.av1 (by decide),
   (codec_priority_total_order "av1").2.2.2.1 rfl,
   (codec_priority_total_order "hevc").2.2.2.2.1 rfl,
   (codec_priority_total_order "avc").2.2.2.2.2 rfl⟩

/-- `find?` on a decomposed list returns the marked element when everything
before it fails the predicate and it satisfies it. -/
theorem find?_append_first {α : Type} (p : α → Bool) :
    ∀ (pre : List α) (u : α) (post : List α),
      (∀ w ∈ pre, p w = false) → p u = true →
      (pre ++ u :: post).find? p = some u := by
  intro pre
  induction pre with
  | nil => intro u post _ hu; simpa using List.find?_cons_of_pos _ hu
  | cons a t ih =>
    intro u post hall hu
    have ha : p a = false := hall a (List.mem_cons_self _ _)
    rw [List.cons_append, List.find?_cons_of_neg _ (by simp [ha])]
    exact ih u post (fun w hw => hall w (List.mem_cons_of_mem _ hw)) hu

/-- C9: a primary URL on no slow-CDN pattern is returned as is; a slow
primary is replaced by the first backup URL not on a slow CDN; when the
primary and every backup are slow, the primary is returned. -/
theorem select_and_avoid_mcdn_url_spec (base_url : String) (backup_urls : List String) :
    (is_slow_cdn base_url = false →
      select_and_avoid_mcdn_url base_url backup_urls = base_url) ∧
    (is_slow_cdn base_url = true →
      (∀ (pre post : List String) (u : String),
          backup_urls = pre ++ u :: post →
          (∀ w ∈ pre, is_slow_cdn w = true) → is_slow_cdn u = false →
          select_and_avoid_mcdn_url base_url backup_urls = u) ∧
      ((∀ u ∈ backup_urls, is_slow_cdn u = true) →
        select_and_avoid_mcdn_url base_url backup_urls = base_url)) := by
  constructor
  · intro hbase
    unfold select_and_avoid_mcdn_url
    rw [if_pos hbase]
  · intro hbase
    constructor
    · intro pre post u hdecomp hpre hu
      unfold select_and_avoid_mcdn_url
      rw [if_neg (by simp [hbase]), hdecomp,
        find?_append_first (fun x => !is_slow_cdn x) pre u post
          (fun w hw => by simp [hpre w hw]) (by simp [hu])]
    · intro hall
      unfold select_and_avoid_mcdn_url
      rw [if_neg (by simp [hbase]),
        List.find?_eq_none.mpr (fun w hw => by simp [hall w hw])]

/-- Witness for C9: the spec's scenario — a primary on the `.mcdn`
pattern with one clean backup yields the backup; a clean primary is kept. -/
theorem select_and_avoid_mcdn_url_spec_witness :
    select_and_avoid_mcdn_url "https://xy.mcdn.bilivideo.cn/v.m4s"
        ["https://upos-hz.bilivideo.com/v.m4s"] = "https://upos-hz.bilivideo.com/v.m4s" ∧
    select_and_avoid_mcdn_url "https://upos-hz.bilivideo.com/v.m4s" []
        = "https://upos-hz.bilivideo.com/v.m4s" := by
  constructor
  · exact ((select_and_avoid_mcdn_url_spec "https://xy.mcdn.bilivideo.cn/v.m4s"
      ["https://upos-hz.bilivideo.com/v.m4s"]).2 (by decide)).1
      [] [] "https://upos-hz.bilivideo.com/v.m4s" rfl (fun w hw => by cases hw) (by decide)
  · exact (select_and_avoid_mcdn_url_spec "https://upos-hz.bilivideo.com/v.m4s" []).1
      (by decide)

/-- Dropping a `p`-prefix leaves nothing for `takeWhile p` to take. -/
theorem takeWhile_dropWhile_nil {α : Type} (p : α → Bool) :
    ∀ l : List α, ((l.dropWhile p).takeWhile p) = [] := by
  intro l
  induction l with
  | nil => rfl
  | cons a t ih =>
    by_cases ha : p a
    · rw [List.dropWhile_cons_of_pos ha]
      exact ih
    · rw [List.dropWhile_cons_of_neg ha, List.takeWhile_cons_of_neg ha]

/-- `takeWhile p` stays empty on prefixes. -/
theorem takeWhile_nil_of_prefix {α : Type} {p : α → Bool} :
    ∀ {m l : List α}, m <+: l → l.takeWhile p = [] → m.takeWhile p = [] := by
  intro m l hpre h2
  cases m with
  | nil => rfl
  | cons a t =>
    obtain ⟨t2, ht⟩ := hpre
    rw [← ht, List.cons_append] at h2
    by_cases ha : p a
    · rw [List.takeWhile_cons_of_pos ha] at h2
      cases h2
    · rw [List.takeWhile_cons_of_neg ha]

/-- `rstrip` removes characters only from the end: its result is a prefix. -/
theorem pyRstrip_front (l : List Char) : pyRstrip l <+: l := by
  have hsuf : l.reverse.dropWhile isPyWhitespace <:+ l.reverse :=
    List.dropWhile_suffix _
  have hp := hsuf.reverse
  rw [List.reverse_reverse] at hp
  exact hp

/-- `rstrip` yields a sublist. -/
theorem pyRstrip_sublist (l : List Char) : (pyRstrip l).Sublist l :=
  (pyRstrip_front l).sublist

/-- After substitution with the default `_` replacement no character of the
forbidden class remains. -/
theorem reSub_all_not_forbidden :
    ∀ s : List Char, ∀ c ∈ reSubForbidden ['_'] s, isForbidden c = false := by
  intro s
  induction s with
  | nil => intro c hc; cases hc
  | cons a t ih =>
    intro c hc
    by_cases ha : isForbidden a
    · rw [show reSubForbidden ['_'] (a :: t) = '_' :: reSubForbidden ['_'] t from by
        simp [reSubForbidden, ha]] at hc
      rcases List.mem_cons.mp hc with hc1 | hct
      · rw [hc1]; decide
      · exact ih c hct
    · rw [show reSubForbidden ['_'] (a :: t) = a :: reSubForbidden ['_'] t from by
        simp [reSubForbidden, ha]] at hc
      rcases List.mem_cons.mp hc with hc1 | hct
      · rw [hc1]; simpa using ha
      · exact ih c hct

/-- Substitution with `_` preserves the absence of leading whitespace. -/
theorem reSub_takeWhile_ws_nil :
    ∀ s : List Char, s.takeWhile isPyWhitespace = [] →
      (reSubForbidden ['_'] s).takeWhile isPyWhitespace = [] := by
  intro s hs
  cases s with
  | nil => rfl
  | cons a t =>
    by_cases ha : isPyWhitespace a
    · rw [List.takeWhile_cons_of_pos ha] at hs
      cases hs
    · by_cases hf : isForbidden a
      · rw [show reSubForbidden ['_'] (a :: t) = '_' :: reSubForbidden ['_'] t from by
          simp [reSubForbidden, hf]]
        rw [List.takeWhile_cons_of_neg (by decide)]
      · rw [show reSubForbidden ['_'] (a :: t) = a :: reSubForbidden ['_'] t from by
          simp [reSubForbidden, hf]]
        rw [List.takeWhile_cons_of_neg ha]

/-- C10: with the default `_` replacement, `sanitize_filename` returns at
most 200 characters, none of them in the forbidden class
`<>:"/\|?*` + control characters 0x00-0x1F, with no leading and no trailing
whitespace. -/
theorem sanitize_filename_spec (name : List Char) :
    (sanitize_filename name ['_']).length ≤ 200 ∧
    (sanitize_filename name ['_']).all (fun c => !isForbidden c) = true ∧
    (sanitize_filename name ['_']).takeWhile isPyWhitespace = [] ∧
    (sanitize_filename name ['_']).reverse.takeWhile isPyWhitespace = [] := by
  have hres : sanitize_filename name ['_']
      = pyRstrip ((reSubForbidden ['_'] (pyStrip name)).take 200) := rfl
  refine ⟨?_, ?_, ?_, ?_⟩
  · rw [hres]
    calc (pyRstrip ((reSubForbidden ['_'] (pyStrip name)).take 200)).length
        ≤ ((reSubForbidden ['_'] (pyStrip name)).take 200).length :=
          (pyRstrip_sublist _).length_le
      _ ≤ 200 := by
          rw [List.length_take]
          exact min_le_left _ _
  · rw [hres, List.all_eq_true]
    intro c hc
    have hcX : c ∈ (reSubForbidden ['_'] (pyStrip name)).take 200 :=
      (pyRstrip_sublist _).subset hc
    have hcZ : c ∈ reSubForbidden ['_'] (pyStrip name) :=
      (List.take_sublist 200 _).subset hcX
    simp [reSub_all_not_forbidden (pyStrip name) c hcZ]
  · rw [hres]
    apply takeWhile_nil_of_prefix (pyRstrip_front _)
    apply takeWhile_nil_of_prefix (List.take_prefix 200 _)
    apply reSub_takeWhile_ws_nil
    apply takeWhile_nil_of_prefix (pyRstrip_front (name.dropWhile isPyWhitespace))
    exact takeWhile_dropWhile_nil isPyWhitespace name
  · rw [hres]
    show (((((reSubForbidden ['_'] (pyStrip name)).take 200).reverse.dropWhile
      isPyWhitespace).reverse).reverse).takeWhile isPyWhitespace = []
    rw [List.reverse_reverse]
    exact takeWhile_dropWhile_nil isPyWhitespace _

/-- C1: the leading-zero strip is broken — `chunk.find(zero_byte)` locates
the first ZERO byte, not the first non-zero byte, so a file starting with
non-zero bytes and containing no zero byte is emptied, and an all-zero file
is copied verbatim instead of producing an empty output. -/
theorem remove_leading_zeros_drops_nonzero_data :
    remove_leading_zeros [1, 2] = [] ∧
    remove_leading_zeros [0, 0, 0] = [0, 0, 0] := by decide

/-- C2: stripping is not the identity on an already-stripped file — for the
two-byte file `0x02 0x03`, whose first byte is non-zero, the code produces an
empty output instead of the unchanged input. -/
theorem remove_leading_zeros_not_idempotent_on_stripped :
    remove_leading_zeros [2, 3] = [] ∧ remove_leading_zeros [2, 3] ≠ [2, 3] := by decide

end BiliVideo
